import Mathlib

/-!
Verification of the goal-tracker statistics and streak engine.

The definitions below are a shallow embedding of the JavaScript source:

* `updateStreak` embeds `userSchema.methods.updateStreak`
  (src/models/User.js, lines 159-189); calendar dates (midnight-truncated)
  are modelled as integer day numbers, so the millisecond quotient
  `Math.floor((today - lastActive) / 86400000)` is the exact integer
  difference of day numbers.
* `getStatsByUser` embeds `goalSchema.statics.getStatsByUser`
  (src/models/Goal.js, lines 272-301).
* `getStatsByCategory` embeds `goalSchema.statics.getStatsByCategory`
  (src/models/Goal.js, lines 303-329); `mongoRound` is MongoDB's `$round`
  with scale 0, which rounds a half to the nearest even integer.
* `completionRate` embeds the dashboard completion rate
  (src/routes/goals.js, stats router, GET /api/stats/dashboard);
  `mathRound` is JavaScript's `Math.round` on a non-negative rational,
  which rounds a half up.
* `progressReport` embeds the aggregation and cumulative pass of
  GET /api/stats/progress (src/routes/goals.js, stats router).
-/

namespace GoalTracker

/-- Streak state stored at `stats.streak` of the user document:
`current` and `longest` consecutive-day counters and the midnight-truncated
`lastActiveDate` (absent before the first recorded activity). -/
structure Streak where
  current : Nat
  longest : Nat
  lastActiveDate : Option Int
  deriving Repr, DecidableEq

/-- Embedding of `userSchema.methods.updateStreak` (src/models/User.js):
`today` is the (day-number) date read from the clock at the start of the
method.  When a last-active date is present the code branches on
`daysDiff = today - lastActive`: `daysDiff === 1` continues the streak and
bumps `longest` when overtaken, `daysDiff > 1` resets `current` to 1, and
every other value (0 as well as negative values) leaves the counters
untouched; in all branches the method finally re-stamps `lastActiveDate`
to `today`.  With no last-active date it sets both counters to 1. -/
def updateStreak (s : Streak) (today : Int) : Streak :=
  match s.lastActiveDate with
  | some lastActive =>
    let daysDiff : Int := today - lastActive
    if daysDiff = 1 then
      let cur := s.current + 1
      { current := cur
        longest := if cur > s.longest then cur else s.longest
        lastActiveDate := some today }
    else if daysDiff > 1 then
      { current := 1, longest := s.longest, lastActiveDate := some today }
    else
      { current := s.current, longest := s.longest, lastActiveDate := some today }
  | none =>
    { current := 1, longest := 1, lastActiveDate := some today }

/-- The streak state of a fresh user document (schema defaults: both
counters 0, no `lastActiveDate`). -/
def streakInit : Streak :=
  { current := 0, longest := 0, lastActiveDate := none }

/-- Folding a sequence of activity dates through `updateStreak`. -/
def runStreak (s : Streak) (days : List Int) : Streak :=
  days.foldl updateStreak s

/-- Helper: in every branch, `updateStreak` re-stamps `lastActiveDate`
to the supplied date. -/
lemma updateStreak_lastActiveDate (s : Streak) (today : Int) :
    (updateStreak s today).lastActiveDate = some today := by
  unfold updateStreak
  cases s.lastActiveDate
  · rfl
  · dsimp only
    split_ifs <;> rfl

/-- Helper: the contiguous-day branch (`daysDiff === 1`). -/
lemma updateStreak_contig (s : Streak) (last today : Int)
    (hd : s.lastActiveDate = some last) (h : today - last = 1) :
    updateStreak s today =
      { current := s.current + 1
        longest := max s.longest (s.current + 1)
        lastActiveDate := some today } := by
  have hmax : (if s.current + 1 > s.longest then s.current + 1 else s.longest) =
      max s.longest (s.current + 1) := by
    split_ifs <;> omega
  unfold updateStreak
  rw [hd]
  dsimp only
  rw [h, if_pos rfl, hmax]

/-- Invariant used for the reachable-state claims: `current` never exceeds
`longest`, and once a last-active date is present `longest` is at least 1. -/
def StreakInv (s : Streak) : Prop :=
  s.current ≤ s.longest ∧ (s.lastActiveDate ≠ none → 1 ≤ s.longest)

lemma updateStreak_preserves_inv (s : Streak) (d : Int) (h : StreakInv s) :
    StreakInv (updateStreak s d) := by
  obtain ⟨h1, h2⟩ := h
  cases hls : s.lastActiveDate with
  | none =>
    simp [StreakInv, updateStreak, hls]
  | some lastActive =>
    rw [hls] at h2
    simp only [ne_eq, reduceCtorEq, not_false_eq_true, forall_const] at h2
    simp only [StreakInv, updateStreak, hls]
    split_ifs <;>
      simp only [ne_eq, reduceCtorEq, not_false_eq_true, forall_const] <;> omega

lemma runStreak_preserves_inv (days : List Int) (s : Streak) (h : StreakInv s) :
    StreakInv (runStreak s days) := by
  induction days generalizing s with
  | nil => exact h
  | cons d ds ih =>
    exact ih (updateStreak s d) (updateStreak_preserves_inv s d h)

/-- C1 counterexample: with `lastActiveDate = 10`, recording activity on
day 9 (strictly earlier) raises no error; the method returns normally with
the counters unchanged but `lastActiveDate` re-stamped backwards to 9, so
the state is not left unchanged. -/
theorem updateStreak_outOfOrder_cex :
    updateStreak { current := 2, longest := 3, lastActiveDate := some 10 } 9 =
      { current := 2, longest := 3, lastActiveDate := some 9 } ∧
    updateStreak { current := 2, longest := 3, lastActiveDate := some 10 } 9 ≠
      { current := 2, longest := 3, lastActiveDate := some 10 } := by
  constructor <;> decide

/-- C1 (amended): calling `updateStreak` with a date strictly earlier than
the stored `lastActiveDate` raises no error; it leaves `current` and
`longest` unchanged and re-stamps `lastActiveDate` to the supplied date. -/
theorem updateStreak_outOfOrder (s : Streak) (d today : Int)
    (hd : s.lastActiveDate = some d) (h : today < d) :
    updateStreak s today =
      { current := s.current, longest := s.longest, lastActiveDate := some today } := by
  unfold updateStreak
  rw [hd]
  have h1 : ¬ (today - d = 1) := by omega
  have h2 : ¬ (today - d > 1) := by omega
  simp only [h1, if_false, h2]

/-- C1 witness: the amended theorem applied at the concrete out-of-order
input of the counterexample. -/
theorem updateStreak_outOfOrder_witness :
    ((({ current := 2, longest := 3, lastActiveDate := some 10 } : Streak)).lastActiveDate
        = some 10 ∧ (9 : Int) < 10) ∧
    updateStreak { current := 2, longest := 3, lastActiveDate := some 10 } 9 =
      { current := 2, longest := 3, lastActiveDate := some 9 } :=
  ⟨⟨rfl, by decide⟩,
    updateStreak_outOfOrder { current := 2, longest := 3, lastActiveDate := some 10 } 10 9
      rfl (by decide)⟩

/-- C2: every state reachable from the fresh streak state by a sequence of
`updateStreak` calls satisfies `longest ≥ current`. -/
theorem streak_longest_ge_current (days : List Int) :
    (runStreak streakInit days).current ≤ (runStreak streakInit days).longest :=
  (runStreak_preserves_inv days streakInit ⟨le_refl 0, by intro h; exact absurd rfl h⟩).1

/-- C3: recording activity twice on the same day gives the same `current`
and `longest` as recording it once, with `lastActiveDate` stamped to that
day; equivalently, a call whose date equals the stored `lastActiveDate`
(`daysDiff = 0`) leaves the counters unchanged and only re-stamps the date. -/
theorem updateStreak_idempotent (s : Streak) (d : Int) (t : Streak)
    (ht : t.lastActiveDate = some d) :
    ((updateStreak (updateStreak s d) d).current = (updateStreak s d).current ∧
     (updateStreak (updateStreak s d) d).longest = (updateStreak s d).longest ∧
     (updateStreak (updateStreak s d) d).lastActiveDate = some d) ∧
    updateStreak t d =
      { current := t.current, longest := t.longest, lastActiveDate := some d } := by
  have same_day : ∀ u : Streak, u.lastActiveDate = some d →
      updateStreak u d =
        { current := u.current, longest := u.longest, lastActiveDate := some d } := by
    intro u hu
    unfold updateStreak
    rw [hu]
    have h1 : ¬ (d - d = 1) := by omega
    have h2 : ¬ (d - d > 1) := by omega
    simp only [h1, if_false, h2]
  have hfirst := updateStreak_lastActiveDate s d
  refine ⟨?_, same_day t ht⟩
  rw [same_day (updateStreak s d) hfirst]
  exact ⟨rfl, rfl, rfl⟩

/-- C3 witness: idempotence at a concrete state and day. -/
theorem updateStreak_idempotent_witness :
    (({ current := 1, longest := 1, lastActiveDate := some 0 } : Streak)).lastActiveDate
        = some 0 ∧
    ((updateStreak (updateStreak streakInit 0) 0).current = (updateStreak streakInit 0).current ∧
     (updateStreak (updateStreak streakInit 0) 0).longest = (updateStreak streakInit 0).longest ∧
     (updateStreak (updateStreak streakInit 0) 0).lastActiveDate = some 0) ∧
    updateStreak { current := 1, longest := 1, lastActiveDate := some 0 } 0 =
      { current := 1, longest := 1, lastActiveDate := some 0 } :=
  ⟨rfl,
    (updateStreak_idempotent streakInit 0
      { current := 1, longest := 1, lastActiveDate := some 0 } rfl).1,
    (updateStreak_idempotent streakInit 0
      { current := 1, longest := 1, lastActiveDate := some 0 } rfl).2⟩

/-- States on which `longest` can never drop: either a last-active date is
present (then the first-activity branch, which overwrites `longest` with 1,
is unreachable), or `longest` is at most 1 already.  Every state reachable
from `streakInit` satisfies this. -/
def LongestSafe (s : Streak) : Prop :=
  s.lastActiveDate ≠ none ∨ s.longest ≤ 1

lemma updateStreak_longest_mono (s : Streak) (d : Int) (h : LongestSafe s) :
    s.longest ≤ (updateStreak s d).longest ∧ LongestSafe (updateStreak s d) := by
  constructor
  · cases hls : s.lastActiveDate with
    | none =>
      have hle : s.longest ≤ 1 := h.resolve_left (by simp [hls])
      simp only [updateStreak, hls]
      omega
    | some lastActive =>
      simp only [updateStreak, hls]
      split_ifs <;> dsimp only <;> omega
  · left
    rw [updateStreak_lastActiveDate]
    simp

lemma runStreak_longest_mono (days : List Int) (s : Streak) (h : LongestSafe s) :
    s.longest ≤ (runStreak s days).longest ∧ LongestSafe (runStreak s days) := by
  induction days generalizing s with
  | nil => exact ⟨le_refl _, h⟩
  | cons d ds ih =>
    obtain ⟨h1, h2⟩ := updateStreak_longest_mono s d h
    obtain ⟨h3, h4⟩ := ih (updateStreak s d) h2
    exact ⟨le_trans h1 h3, h4⟩

/-- C4 counterexample: the claim quantifies over every streak state, but on
the (unreachable) state with no `lastActiveDate` and `longest = 5`, one
`updateStreak` call — a single-date, trivially non-decreasing sequence —
drops `longest` from 5 to 1, because the first-activity branch assigns
`longest = 1` unconditionally. -/
theorem streak_longest_mono_cex :
    (updateStreak { current := 0, longest := 5, lastActiveDate := none } 0).longest <
      ({ current := 0, longest := 5, lastActiveDate := none } : Streak).longest := by
  decide

/-- C4 (amended): for every streak state that has a `lastActiveDate` or has
`longest ≤ 1` (in particular every state reachable from the fresh state),
and every sequence of `updateStreak` calls with non-decreasing dates,
`longest` is monotonically non-decreasing across the sequence: its value
at any earlier point of the sequence is at most its value at any later
point. -/
theorem streak_longest_mono (s : Streak) (ds₁ ds₂ : List Int)
    (hs : LongestSafe s) (_hmono : (ds₁ ++ ds₂).Chain' (· ≤ ·)) :
    (runStreak s ds₁).longest ≤ (runStreak s (ds₁ ++ ds₂)).longest := by
  have happ : runStreak s (ds₁ ++ ds₂) = runStreak (runStreak s ds₁) ds₂ :=
    List.foldl_append updateStreak s ds₁ ds₂
  rw [happ]
  exact (runStreak_longest_mono ds₂ (runStreak s ds₁)
    (runStreak_longest_mono ds₁ s hs).2).1

/-- C4 witness: the amended theorem at the fresh state and the
non-decreasing date sequence `[0] ++ [1]`. -/
theorem streak_longest_mono_witness :
    (LongestSafe streakInit ∧ ([0, 1] : List Int).Chain' (· ≤ ·)) ∧
    (runStreak streakInit [0]).longest ≤ (runStreak streakInit ([0] ++ [1])).longest :=
  ⟨⟨Or.inr (by decide), by simp⟩,
    streak_longest_mono streakInit [0] [1] (Or.inr (by decide)) (by simp)⟩

/-- C5: when the supplied date is strictly more than one day after the
stored `lastActiveDate` (`daysDiff > 1`), the streak is broken: the result
has `current = 1`, `longest` unchanged and `lastActiveDate` re-stamped;
the witness below instantiates the spec's break-and-restart example
(`current = 5, longest = 5, lastActiveDate = d`, activity on `d + 5`). -/
theorem updateStreak_break (s : Streak) (d today : Int)
    (hd : s.lastActiveDate = some d) (h : 1 < today - d) :
    updateStreak s today =
      { current := 1, longest := s.longest, lastActiveDate := some today } := by
  unfold updateStreak
  rw [hd]
  have h1 : ¬ (today - d = 1) := by omega
  simp only [h1, if_false, gt_iff_lt, h, if_true]

/-- C5 witness: break-and-restart from `current = 5, longest = 5,
lastActiveDate = 0` on day `0 + 5` yields `current = 1, longest = 5`. -/
theorem updateStreak_break_witness :
    ((({ current := 5, longest := 5, lastActiveDate := some 0 } : Streak)).lastActiveDate
        = some 0 ∧ (1 : Int) < 0 + 5 - 0) ∧
    updateStreak { current := 5, longest := 5, lastActiveDate := some 0 } (0 + 5) =
      { current := 1, longest := 5, lastActiveDate := some (0 + 5) } :=
  ⟨⟨rfl, by decide⟩,
    updateStreak_break { current := 5, longest := 5, lastActiveDate := some 0 } 0 (0 + 5)
      rfl (by decide)⟩

/-- C6: from the fresh state, activity on three consecutive days
`d, d + 1, d + 2` yields `current = 3, longest = 3`; and each
contiguous-day step (`daysDiff = 1`) increments `current` by one and
raises `longest` to `current` when `current` exceeds it (i.e. the new
`longest` is the maximum of the old `longest` and the new `current`). -/
theorem streak_three_consecutive (d : Int) (s : Streak) (last today : Int)
    (hd : s.lastActiveDate = some last) (h : today - last = 1) :
    runStreak streakInit [d, d + 1, d + 2] =
      { current := 3, longest := 3, lastActiveDate := some (d + 2) } ∧
    (updateStreak s today).current = s.current + 1 ∧
    (updateStreak s today).longest = max s.longest (s.current + 1) := by
  have hstep := updateStreak_contig s last today hd h
  refine ⟨?_, by rw [hstep], by rw [hstep]⟩
  have h0 : updateStreak streakInit d =
      { current := 1, longest := 1, lastActiveDate := some d } := rfl
  have h1 : updateStreak { current := 1, longest := 1, lastActiveDate := some d } (d + 1) =
      { current := 2, longest := 2, lastActiveDate := some (d + 1) } := by
    rw [updateStreak_contig _ d (d + 1) rfl (by omega)]
    norm_num
  have h2 : updateStreak { current := 2, longest := 2, lastActiveDate := some (d + 1) }
      (d + 2) =
      { current := 3, longest := 3, lastActiveDate := some (d + 2) } := by
    rw [updateStreak_contig _ (d + 1) (d + 2) rfl (by omega)]
    norm_num
  show updateStreak (updateStreak (updateStreak streakInit d) (d + 1)) (d + 2) = _
  rw [h0, h1, h2]

/-- C6 witness: the three-consecutive-day run at `d = 0` together with the
contiguous step at the state reached after the first day. -/
theorem streak_three_consecutive_witness :
    ((({ current := 1, longest := 1, lastActiveDate := some 0 } : Streak)).lastActiveDate
        = some 0 ∧ (1 : Int) - 0 = 1) ∧
    runStreak streakInit [0, 0 + 1, 0 + 2] =
      { current := 3, longest := 3, lastActiveDate := some (0 + 2) } ∧
    (updateStreak { current := 1, longest := 1, lastActiveDate := some 0 } 1).current =
      ({ current := 1, longest := 1, lastActiveDate := some 0 } : Streak).current + 1 ∧
    (updateStreak { current := 1, longest := 1, lastActiveDate := some 0 } 1).longest =
      max ({ current := 1, longest := 1, lastActiveDate := some 0 } : Streak).longest
        (({ current := 1, longest := 1, lastActiveDate := some 0 } : Streak).current + 1) :=
  ⟨⟨rfl, by decide⟩,
    streak_three_consecutive 0 { current := 1, longest := 1, lastActiveDate := some 0 } 0 1
      rfl (by decide)⟩

/-- The fields of a goal document consumed by the statistics code
(src/models/Goal.js); timestamps are modelled as integers. -/
structure GoalRecord where
  category : String
  priority : String
  completed : Bool
  createdAt : Int
  deadline : Int
  deriving Repr, DecidableEq

/-- JavaScript `Math.round` applied to the non-negative rational
`num / den` (for `den > 0`): halves round up, i.e. the result is
`⌊num / den + 1 / 2⌋`. -/
def mathRound (num den : Nat) : Nat :=
  (2 * num + den) / (2 * den)

/-- MongoDB `$round` with scale 0 applied to the non-negative rational
`num / den` (for `den > 0`): halves round to the nearest even integer. -/
def mongoRound (num den : Nat) : Nat :=
  if 2 * (num % den) < den then num / den
  else if den < 2 * (num % den) then num / den + 1
  else if num / den % 2 = 0 then num / den else num / den + 1

/-- Dashboard completion rate (GET /api/stats/dashboard, stats router in
src/routes/goals.js):
`totalGoals > 0 ? Math.round((completedGoals / totalGoals) * 100) : 0`. -/
def completionRate (completed total : Nat) : Nat :=
  if 0 < total then mathRound (completed * 100) total else 0

/-- Modelled from the spec's stated rounding policy (for comparison with
the code): round-half-up of the rational `completed / total × 100`,
defined as 0 when `total = 0`. -/
def specRoundHalfUp (completed total : Nat) : Nat :=
  if total = 0 then 0 else (⌊(completed : ℚ) / (total : ℚ) * 100 + 1 / 2⌋).toNat

/-- Overview counters produced by `getStatsByUser`. -/
structure OverviewStats where
  total : Nat
  completed : Nat
  overdue : Nat
  deriving Repr, DecidableEq

/-- Embedding of the `$group` stage of `goalSchema.statics.getStatsByUser`
(src/models/Goal.js): all of the user's records are collapsed into a
single group counting `total`, `completed`, and `overdue` (not completed
and deadline strictly before the evaluation instant `now`); with no
records the pipeline emits no group at all. -/
def getStatsGroup (records : List GoalRecord) (now : Int) : Option OverviewStats :=
  match records with
  | [] => none
  | _ => some
    { total := records.length
      completed := (records.filter (fun r => r.completed)).length
      overdue := (records.filter (fun r => !r.completed && decide (r.deadline < now))).length }

/-- Embedding of `getStatsByUser`: the aggregation result when present,
otherwise the literal fallback `stats[0] || { total: 0, completed: 0,
overdue: 0 }`. -/
def getStatsByUser (records : List GoalRecord) (now : Int) : OverviewStats :=
  (getStatsGroup records now).getD { total := 0, completed := 0, overdue := 0 }

/-- One output row of `getStatsByCategory`. -/
structure CategoryStat where
  category : String
  total : Nat
  completed : Nat
  percentage : Nat
  deriving Repr, DecidableEq

/-- Embedding of `goalSchema.statics.getStatsByCategory`
(src/models/Goal.js): `$group` by `$category` produces one row per
category value present in the records, counting the group's `total` and
`completed`; `$project` then adds
`percentage = $round(completed / total * 100, 0)`. -/
def getStatsByCategory (records : List GoalRecord) : List CategoryStat :=
  (records.map (fun r => r.category)).dedup.map fun c =>
    { category := c
      total := (records.filter (fun r => r.category == c)).length
      completed := ((records.filter (fun r => r.category == c)).filter
        (fun r => r.completed)).length
      percentage := mongoRound
        (((records.filter (fun r => r.category == c)).filter
          (fun r => r.completed)).length * 100)
        (records.filter (fun r => r.category == c)).length }

/-- A goal record carrying only the fields a statistics claim inspects. -/
def mkRecord (cat : String) (done : Bool) : GoalRecord :=
  { category := cat, priority := "medium", completed := done, createdAt := 0, deadline := 0 }

/-- Helper: `Math.round((c / t) * 100)` computed with natural-number
division agrees with the rational round-half-up value. -/
lemma mathRound_eq_floor (c t : Nat) (ht : 0 < t) :
    mathRound (c * 100) t = (⌊(c : ℚ) / (t : ℚ) * 100 + 1 / 2⌋).toNat := by
  have ht0 : (t : ℚ) ≠ 0 := by
    exact_mod_cast ht.ne'
  have hx : (c : ℚ) / (t : ℚ) * 100 + 1 / 2 =
      (((200 * c + t : ℕ) : ℤ) : ℚ) / ((2 * t : ℕ) : ℚ) := by
    push_cast
    field_simp
    ring
  rw [hx, Rat.floor_intCast_div_natCast]
  rw [show ((200 * c + t : ℕ) : ℤ) / ((2 * t : ℕ) : ℤ) =
      (((200 * c + t) / (2 * t) : ℕ) : ℤ) from (Int.ofNat_div _ _).symm]
  rw [Int.toNat_natCast]
  unfold mathRound
  congr 1
  ring

/-- C7 counterexample: on eight records of one category with exactly one
completed, the per-category percentage is the MongoDB `$round` of 12.5,
which is 12 (half to even), while round-half-up of 1/8 × 100 is 13 — so
not every engine percentage is the round-half-up value. -/
theorem percentage_halfUp_cex :
    getStatsByCategory
        (mkRecord "health" true :: List.replicate 7 (mkRecord "health" false)) =
      [{ category := "health", total := 8, completed := 1, percentage := 12 }] ∧
    specRoundHalfUp 1 8 = 13 := by
  constructor
  · decide
  · have h := mathRound_eq_floor 1 8 (by omega)
    unfold specRoundHalfUp
    rw [if_neg (by omega), ← h]
    decide

/-- C7 (amended): the dashboard `completionRate` (and with it every rate
computed by `Math.round` on `completed / total × 100`) equals the
round-half-up value and is 0 when `total = 0`; both it and the
per-category `$round` percentage lie in `[0, 100]` whenever
`completed ≤ total` — but the per-category percentage rounds halves to
even rather than up. -/
theorem percentage_bounds (c t : Nat) (h : c ≤ t) :
    completionRate c t = specRoundHalfUp c t ∧
    completionRate c t ≤ 100 ∧
    (0 < t → mongoRound (c * 100) t ≤ 100) ∧
    completionRate 0 0 = 0 := by
  have hq : ∀ ht : 0 < t, c * 100 / t ≤ 100 := by
    intro ht
    have h1 : c * 100 / t ≤ t * 100 / t :=
      Nat.div_le_div_right (Nat.mul_le_mul_right 100 h)
    have h2 : t * 100 / t = 100 := Nat.mul_div_cancel_left 100 ht
    omega
  refine ⟨?_, ?_, ?_, rfl⟩
  · rcases Nat.eq_zero_or_pos t with ht | ht
    · subst ht
      rfl
    · unfold completionRate specRoundHalfUp
      rw [if_pos ht, if_neg ht.ne', mathRound_eq_floor c t ht]
  · rcases Nat.eq_zero_or_pos t with ht | ht
    · subst ht
      simp [completionRate]
    · unfold completionRate mathRound
      rw [if_pos ht]
      have h2 : 2 * (c * 100) + t < 101 * (2 * t) := by omega
      have h3 := (Nat.div_lt_iff_lt_mul (show 0 < 2 * t by omega)).mpr h2
      omega
  · intro ht
    have hdm := Nat.div_add_mod (c * 100) t
    have hrlt : c * 100 % t < t := Nat.mod_lt _ ht
    have hvq := hq ht
    unfold mongoRound
    split_ifs with h1 h2 h3 <;> try omega
    all_goals {
      rcases Nat.lt_or_ge (c * 100 / t) 100 with hlt | hge
      · omega
      · have h100 : c * 100 / t = 100 := by omega
        rw [h100] at hdm
        omega
    }

/-- C7 witness: the amended theorem at `completed = 1, total = 8`, where
`completionRate` is 13 and the category percentage stays within bounds. -/
theorem percentage_bounds_witness :
    (1 : Nat) ≤ 8 ∧
    (completionRate 1 8 = specRoundHalfUp 1 8 ∧
     completionRate 1 8 ≤ 100 ∧
     (0 < 8 → mongoRound (1 * 100) 8 ≤ 100) ∧
     completionRate 0 0 = 0) :=
  ⟨by decide, percentage_bounds 1 8 (by decide)⟩

/-- Helper: the categories of the rows of `getStatsByCategory` are exactly
the deduplicated categories of the input records. -/
lemma byCategory_categories (records : List GoalRecord) :
    (getStatsByCategory records).map (fun e => e.category) =
      (records.map (fun r => r.category)).dedup := by
  unfold getStatsByCategory
  rw [List.map_map]
  exact List.map_id _

/-- C8: `getStatsByCategory` emits one row per category present in at
least one record and omits absent categories (every listed category is a
record's category and no category repeats), and on the spec's example —
two `health` records with one completed plus one completed `career`
record — it yields exactly the rows
`health ↦ {count 2, completed 1, percentage 50}` and
`career ↦ {count 1, completed 1, percentage 100}`. -/
theorem byCategory_grouping :
    getStatsByCategory
        [mkRecord "health" true, mkRecord "health" false, mkRecord "career" true] =
      [{ category := "health", total := 2, completed := 1, percentage := 50 },
       { category := "career", total := 1, completed := 1, percentage := 100 }] ∧
    (∀ (records : List GoalRecord) (c : String),
      (∃ e ∈ getStatsByCategory records, e.category = c) ↔
        ∃ r ∈ records, r.category = c) ∧
    (∀ records : List GoalRecord,
      ((getStatsByCategory records).map (fun e => e.category)).Nodup) := by
  refine ⟨by decide, ?_, ?_⟩
  · intro records c
    have h1 : (∃ e ∈ getStatsByCategory records, e.category = c) ↔
        c ∈ (getStatsByCategory records).map (fun e => e.category) :=
      List.mem_map.symm
    rw [h1, byCategory_categories, List.mem_dedup, List.mem_map]
  · intro records
    rw [byCategory_categories]
    exact (records.map (fun r => r.category)).nodup_dedup

/-- C10: for a user with zero goal records the aggregation pipeline of
`getStatsByUser` produces no group, and the method returns the fallback
object `{ total: 0, completed: 0, overdue: 0 }` rather than failing or
returning nothing. -/
theorem getStatsByUser_empty (now : Int) :
    getStatsByUser [] now = { total := 0, completed := 0, overdue := 0 } := rfl


/-- One bucket of the GET /api/stats/progress aggregation: the creation
day key, the number of records created that day, and how many of them are
currently flagged completed. -/
structure ProgressBucket where
  date : Int
  created : Nat
  completed : Nat
  deriving Repr, DecidableEq

/-- Day key of a timestamp: `$dateToString` with format `%Y-%m-%d` groups
timestamps by UTC calendar day, i.e. by the floor of the timestamp over
the length of a day in milliseconds. -/
def dayKey (t : Int) : Int :=
  Int.fdiv t 86400000

/-- Embedding of the aggregation pipeline of GET /api/stats/progress
(stats router in src/routes/goals.js): `$group` the supplied records by
creation day — one bucket per day that has at least one record, counting
the day's records (`created`) and those currently completed — and `$sort`
the buckets by day key ascending. -/
def progressBuckets (records : List GoalRecord) : List ProgressBucket :=
  (((records.map (fun r => dayKey r.createdAt)).dedup).insertionSort (· ≤ ·)).map fun k =>
    { date := k
      created := (records.filter (fun r => dayKey r.createdAt == k)).length
      completed := (records.filter
        (fun r => dayKey r.createdAt == k && r.completed)).length }

/-- One row of the response of GET /api/stats/progress. -/
structure ProgressEntry where
  date : Int
  total : Nat
  completed : Nat
  completionRate : Nat
  deriving Repr, DecidableEq

/-- The cumulative `.map` pass of GET /api/stats/progress: the mutable
accumulators `cumulativeTotal` and `cumulativeCompleted` are threaded
through the sorted buckets as `ct` and `cc`, and each row recomputes its
rate from the running sums exactly as the dashboard `completionRate`
does. -/
def cumulativeProgress (ct cc : Nat) : List ProgressBucket → List ProgressEntry
  | [] => []
  | b :: bs =>
    { date := b.date
      total := ct + b.created
      completed := cc + b.completed
      completionRate := GoalTracker.completionRate (cc + b.completed) (ct + b.created) } ::
    cumulativeProgress (ct + b.created) (cc + b.completed) bs

/-- The full GET /api/stats/progress computation: keep only the records
with `createdAt ≥ startDate`, bucket them by creation day, and
accumulate. -/
def progressReport (records : List GoalRecord) (startDate : Int) : List ProgressEntry :=
  cumulativeProgress 0 0
    (progressBuckets (records.filter (fun r => startDate ≤ r.createdAt)))

lemma getLast?_cons_of_ne_nil {α : Type} (a : α) {l : List α} (h : l ≠ []) :
    (a :: l).getLast? = l.getLast? := by
  cases l with
  | nil => exact absurd rfl h
  | cons b t => exact List.getLast?_cons_cons

/-- Helper: the last cumulative row carries the accumulators plus the sums
of the per-bucket counters. -/
lemma cumulativeProgress_last (b : ProgressBucket) (bs : List ProgressBucket) :
    ∀ ct cc : Nat,
    (cumulativeProgress ct cc (b :: bs)).getLast?.map (fun e => (e.total, e.completed)) =
      some (ct + ((b :: bs).map (fun x => x.created)).sum,
        cc + ((b :: bs).map (fun x => x.completed)).sum) := by
  induction bs generalizing b with
  | nil =>
    intro ct cc
    simp [cumulativeProgress]
  | cons b2 bs2 ih =>
    intro ct cc
    have hstep : cumulativeProgress ct cc (b :: b2 :: bs2) =
        { date := b.date, total := ct + b.created, completed := cc + b.completed,
          completionRate :=
            GoalTracker.completionRate (cc + b.completed) (ct + b.created) } ::
          cumulativeProgress (ct + b.created) (cc + b.completed) (b2 :: bs2) := rfl
    have hne : cumulativeProgress (ct + b.created) (cc + b.completed) (b2 :: bs2) ≠ [] := by
      simp [cumulativeProgress]
    rw [hstep, getLast?_cons_of_ne_nil _ hne, ih b2 (ct + b.created) (cc + b.completed)]
    simp only [List.map_cons, List.sum_cons, Option.some.injEq, Prod.mk.injEq]
    omega

/-- Helper: the dates of the cumulative rows are the dates of the
buckets. -/
lemma cumulativeProgress_dates (bs : List ProgressBucket) :
    ∀ ct cc : Nat,
    (cumulativeProgress ct cc bs).map (fun e => e.date) = bs.map (fun b => b.date) := by
  induction bs with
  | nil => intro ct cc; rfl
  | cons b bs ih =>
    intro ct cc
    simp only [cumulativeProgress, List.map_cons, ih]

/-- Helper: summing, over a duplicate-free key list that covers every
element's key, the sizes of the per-key groups recovers the list size. -/
lemma sum_group_sizes {α κ : Type} [DecidableEq κ] (f : α → κ) :
    ∀ D : List κ, D.Nodup → ∀ l : List α, (∀ a ∈ l, f a ∈ D) →
      (D.map (fun k => (l.filter (fun a => f a == k)).length)).sum = l.length := by
  intro D
  induction D with
  | nil =>
    intro _ l hl
    cases l with
    | nil => rfl
    | cons a t => exact absurd (hl a (by simp)) (by simp)
  | cons k D ih =>
    intro hnd l hl
    have hk : k ∉ D := (List.nodup_cons.mp hnd).1
    have hnd2 : D.Nodup := (List.nodup_cons.mp hnd).2
    have hsplit : (l.filter (fun a => f a == k)).length +
        (l.filter (fun a => !(f a == k))).length = l.length := by
      have h1 := List.length_eq_countP_add_countP (fun a => f a == k) l
      rw [List.countP_eq_length_filter, List.countP_eq_length_filter] at h1
      have h2 : (l.filter (fun a => decide ¬((f a == k) = true))).length =
          (l.filter (fun a => !(f a == k))).length := by
        apply congrArg
        apply List.filter_congr
        intro a _
        cases h : f a == k <;> simp [h]
      omega
    have htail : ∀ k' ∈ D,
        (l.filter (fun a => f a == k')).length =
          ((l.filter (fun a => !(f a == k))).filter (fun a => f a == k')).length := by
      intro k' hk'
      have hkk : k' ≠ k := fun he => hk (he ▸ hk')
      rw [List.filter_filter]
      apply congrArg
      apply List.filter_congr
      intro a _
      cases h : f a == k' with
      | false => simp [h]
      | true =>
        have hak : f a = k' := eq_of_beq h
        have hne : (f a == k) = false := by
          simp only [hak]
          exact beq_false_of_ne hkk
        simp [h, hne]
    have hmap : D.map (fun k' => (l.filter (fun a => f a == k')).length) =
        D.map (fun k' =>
          ((l.filter (fun a => !(f a == k))).filter (fun a => f a == k')).length) :=
      List.map_congr_left htail
    have hcover : ∀ a ∈ l.filter (fun a => !(f a == k)), f a ∈ D := by
      intro a ha
      have hmem := List.mem_filter.mp ha
      have h1 : f a ∈ k :: D := hl a hmem.1
      have h3 : f a ≠ k := by
        intro he
        rw [he] at hmem
        simp at hmem
      rcases List.mem_cons.mp h1 with h5 | h5
      · exact absurd h5 h3
      · exact h5
    rw [List.map_cons, List.sum_cons, hmap, ih hnd2 _ hcover]
    omega

/-- Helper: the day key of every record occurs in the sorted,
deduplicated key list that drives `progressBuckets`. -/
lemma mem_sortedKeys (records : List GoalRecord) (r : GoalRecord) (hr : r ∈ records) :
    dayKey r.createdAt ∈
      ((records.map (fun x => dayKey x.createdAt)).dedup).insertionSort (· ≤ ·) := by
  rw [(List.perm_insertionSort (· ≤ ·) _).mem_iff, List.mem_dedup, List.mem_map]
  exact ⟨r, hr, rfl⟩

lemma sortedKeys_nodup (records : List GoalRecord) :
    (((records.map (fun x => dayKey x.createdAt)).dedup).insertionSort (· ≤ ·)).Nodup :=
  ((List.perm_insertionSort (· ≤ ·) _).nodup_iff).mpr
    (records.map (fun x => dayKey x.createdAt)).nodup_dedup

/-- Helper: the bucket dates are exactly the sorted deduplicated keys. -/
lemma progressBuckets_dates (records : List GoalRecord) :
    (progressBuckets records).map (fun b => b.date) =
      ((records.map (fun r => dayKey r.createdAt)).dedup).insertionSort (· ≤ ·) := by
  unfold progressBuckets
  rw [List.map_map]
  exact List.map_id _

/-- Helper: the bucket `created` counters sum to the record count. -/
lemma progressBuckets_created_sum (records : List GoalRecord) :
    ((progressBuckets records).map (fun b => b.created)).sum = records.length := by
  unfold progressBuckets
  rw [List.map_map]
  exact sum_group_sizes (fun r => dayKey r.createdAt) _ (sortedKeys_nodup records) records
    (fun a ha => mem_sortedKeys records a ha)

/-- Helper: the bucket `completed` counters sum to the count of currently
completed records. -/
lemma progressBuckets_completed_sum (records : List GoalRecord) :
    ((progressBuckets records).map (fun b => b.completed)).sum =
      (records.filter (fun r => r.completed)).length := by
  unfold progressBuckets
  rw [List.map_map]
  simp only [← List.filter_filter]
  exact sum_group_sizes (fun r => dayKey r.createdAt) _ (sortedKeys_nodup records)
    (records.filter (fun r => r.completed))
    (fun a ha => mem_sortedKeys records a (List.mem_filter.mp ha).1)

/-- Helper: no buckets means no records. -/
lemma progressBuckets_eq_nil (records : List GoalRecord)
    (h : progressBuckets records = []) : records = [] := by
  by_contra hne
  obtain ⟨r, hr⟩ := List.exists_mem_of_ne_nil records hne
  have hmem := mem_sortedKeys records r hr
  unfold progressBuckets at h
  rw [List.map_eq_nil.mp h] at hmem
  exact absurd hmem (List.not_mem_nil _)

/-- C9: for every record set and window start, the progress time series of
the records with `createdAt ≥ startDate` lists its buckets in ascending
day order, and the cumulative `total` and `completed` of its last row
equal the number of records created within the window and the number of
those currently completed. -/
theorem progress_last_bucket (records : List GoalRecord) (startDate : Int)
    (h : records.filter (fun r => startDate ≤ r.createdAt) ≠ []) :
    ((progressReport records startDate).getLast?).map (fun e => (e.total, e.completed)) =
      some ((records.filter (fun r => startDate ≤ r.createdAt)).length,
        ((records.filter (fun r => startDate ≤ r.createdAt)).filter
          (fun r => r.completed)).length) ∧
    ((progressReport records startDate).map (fun e => e.date)).Sorted (· ≤ ·) := by
  constructor
  · cases hbk : progressBuckets (records.filter (fun r => startDate ≤ r.createdAt)) with
    | nil => exact absurd (progressBuckets_eq_nil _ hbk) h
    | cons b bs =>
      have hrep : progressReport records startDate = cumulativeProgress 0 0 (b :: bs) := by
        rw [progressReport, hbk]
      rw [hrep, cumulativeProgress_last b bs 0 0, ← hbk,
        progressBuckets_created_sum, progressBuckets_completed_sum]
      simp
  · rw [progressReport,
      cumulativeProgress_dates (progressBuckets
        (records.filter (fun r => startDate ≤ r.createdAt))) 0 0,
      progressBuckets_dates]
    exact List.sorted_insertionSort (· ≤ ·) _

/-- C9 witness: two in-window records on two different days, one of them
completed: the last cumulative row reports `total = 2, completed = 1`. -/
theorem progress_last_bucket_witness :
    ([{ category := "health", priority := "high", completed := true,
        createdAt := 0, deadline := 0 },
      { category := "career", priority := "low", completed := false,
        createdAt := 86400005, deadline := 0 }].filter
        (fun r : GoalRecord => (0 : Int) ≤ r.createdAt) ≠ []) ∧
    ((((progressReport
        [{ category := "health", priority := "high", completed := true,
           createdAt := 0, deadline := 0 },
         { category := "career", priority := "low", completed := false,
           createdAt := 86400005, deadline := 0 }] 0).getLast?).map
            (fun e => (e.total, e.completed)) =
      some (([{ category := "health", priority := "high", completed := true,
                createdAt := 0, deadline := 0 },
              { category := "career", priority := "low", completed := false,
                createdAt := 86400005, deadline := 0 }].filter
          (fun r : GoalRecord => (0 : Int) ≤ r.createdAt)).length,
        (([{ category := "health", priority := "high", completed := true,
             createdAt := 0, deadline := 0 },
           { category := "career", priority := "low", completed := false,
             createdAt := 86400005, deadline := 0 }].filter
            (fun r : GoalRecord => (0 : Int) ≤ r.createdAt)).filter
          (fun r => r.completed)).length)) ∧
    (((progressReport
        [{ category := "health", priority := "high", completed := true,
           createdAt := 0, deadline := 0 },
         { category := "career", priority := "low", completed := false,
           createdAt := 86400005, deadline := 0 }] 0).map
        (fun e => e.date)).Sorted (· ≤ ·))) :=
  ⟨by decide,
    progress_last_bucket
      [{ category := "health", priority := "high", completed := true,
         createdAt := 0, deadline := 0 },
       { category := "career", priority := "low", completed := false,
         createdAt := 86400005, deadline := 0 }] 0 (by decide)⟩

end GoalTracker
